import Mathlib

/-!
# vis: playback state machine and free-fly camera

A shallow embedding of `src/main.cpp`:

* the playback globals (`t`, `ni`, `ws`, `lastBreakIndex`, `cleared`, `paused`,
  `pass_break`, the key latches) together with the two locals of `main` that
  survive between iterations of the frame loop (`bt`, `broken`);
* one iteration of the frame loop, split in the order of the source:
  index recomputation and breakpoint gating (lines 502-517), `processInput`
  (lines 268-274 and 301-327), the clear step and the draw range
  (lines 541-545), and `t += dt` (line 548);
* `Camera::updateCameraVectors`, `ProcessMouseMovement`, `Rotate` and
  `SetUnitView`, over an arbitrary field with the `libm` functions passed in.

Conventions.  `double`/`float` values are exact numbers (`ℚ` for the playback
clock, a field `α` for the camera).  `int` values are unbounded integers: every
index the loop computes is clamped to `vertices.size() / 3`, and the conversion
`int(t * SPEED / 0.1)` only overflows for a clock beyond `2^31 / 20` seconds.
Reading `breaks[i]` with `i` outside the vector is undefined behaviour in the
source; the embedding makes the frame fail (`none`) there.
-/

namespace Vis

/-! ## Playback state -/

/-- `constexpr int SPEED = 2;` -/
def SPEED : Int := 2

/-- `constexpr const int PERSISTENCE = 50;` -/
def PERSISTENCE : Int := 50

/-- The conversion `int(x)` of a real number: truncation toward zero. -/
def toInt (x : ℚ) : Int := if 0 ≤ x then ⌊x⌋ else ⌈x⌉

/-- The expression `int(t * (float)SPEED / 0.1)`. -/
def rawIndex (t : ℚ) : Int := toInt (t * (SPEED : ℚ) / (1 / 10))

/-- The expression `int(vertices.size() / 3)`, for `vertices.size() = vsize`. -/
def numPoints (vsize : Nat) : Int := ((vsize / 3 : Nat) : Int)

/-- The element `breaks[i]` of the `std::vector<int>`, `none` outside the vector. -/
def breakAt (breaks : List Int) (i : Int) : Option Int :=
  if 0 ≤ i then breaks[i.toNat]? else none

/-- The playback variables that live across frames: the globals of lines 228-242
and the locals `bt`, `broken` of `main` (lines 493-494). -/
structure Playback where
  t : ℚ
  ni : Int
  ws : Int
  lastBreakIndex : Int
  cleared : Bool
  paused : Bool
  pass_break : Bool
  c_pressed : Bool
  p_pressed : Bool
  n_pressed : Bool
  bt : ℚ
  broken : Bool
  deriving DecidableEq

/-- The values the variables are initialised with. -/
def Playback.init : Playback :=
  { t := 0, ni := 0, ws := 0, lastBreakIndex := -1, cleared := false, paused := false,
    pass_break := false, c_pressed := false, p_pressed := false, n_pressed := false,
    bt := 0, broken := false }

/-- The keys `processInput` polls for playback; `true` is `GLFW_PRESS`,
`false` is `GLFW_RELEASE`. -/
structure Keys where
  keyR : Bool
  keyC : Bool
  keyF : Bool
  keyG : Bool
  keyP : Bool
  keyN : Bool
  deriving DecidableEq

/-- No key held. -/
def Keys.none : Keys :=
  { keyR := false, keyC := false, keyF := false, keyG := false, keyP := false, keyN := false }

/-- What one iteration of the frame loop reads from outside: the elapsed time
`dt = nt - ct` and the key states. -/
structure FrameInput where
  dt : ℚ
  keys : Keys
  deriving DecidableEq

/-! ## One frame -/

/-- Lines 502-517: `prevNi = ni`, the recomputation of `ni`, and the breakpoint
gating.  Fails when `breaks[lastBreakIndex + 1]` is read outside the vector. -/
def gate (vsize : Nat) (breaks : List Int) (s : Playback) : Option Playback :=
  let prevNi := s.ni
  let ni := min (numPoints vsize) (rawIndex s.t)
  if breaks.length > 0 then
    match breakAt breaks (s.lastBreakIndex + 1) with
    | Option.none => Option.none
    | some b =>
      if b ≥ prevNi ∧ b ≤ ni then
        let bt := if s.broken then s.bt else s.t
        if s.pass_break then
          some { s with ni := ni, bt := bt, pass_break := false, broken := false,
                        lastBreakIndex := s.lastBreakIndex + 1 }
        else
          some { s with ni := prevNi, t := bt, bt := bt, broken := true }
      else some { s with ni := ni }
  else some { s with ni := ni }

/-- Lines 268-274: the `R` key. -/
def inputR (k : Keys) (s : Playback) : Playback :=
  if k.keyR then { s with ni := 0, t := 0, ws := 0, lastBreakIndex := -1, pass_break := false }
  else s

/-- Lines 301-306: the `C` key. -/
def inputC (k : Keys) (s : Playback) : Playback :=
  let s1 := if k.keyC && !s.c_pressed then { s with cleared := true } else s
  if !k.keyC then { s1 with c_pressed := false } else s1

/-- Lines 307-310: the `F` key. -/
def inputF (k : Keys) (s : Playback) : Playback :=
  if k.keyF then
    let t1 := max 0 (s.t - 4 / 100)
    { s with t := t1, ws := min s.ws (rawIndex t1) }
  else s

/-- Lines 311-313: the `G` key. -/
def inputG (k : Keys) (s : Playback) : Playback :=
  if k.keyG then { s with t := s.t + 4 / 100 } else s

/-- Lines 314-320: the `P` key. -/
def inputP (k : Keys) (s : Playback) : Playback :=
  let s1 := if k.keyP && !s.p_pressed then { s with paused := !s.paused, p_pressed := true } else s
  if !k.keyP then { s1 with p_pressed := false } else s1

/-- Lines 321-327: the `N` key. -/
def inputN (k : Keys) (s : Playback) : Playback :=
  let s1 := if k.keyN && !s.n_pressed then { s with pass_break := true, n_pressed := true } else s
  if !k.keyN then { s1 with n_pressed := false } else s1

/-- The playback part of `processInput`, in the order of the source. -/
def processInput (k : Keys) (s : Playback) : Playback :=
  inputN k (inputP k (inputG k (inputF k (inputC k (inputR k s)))))

/-- Lines 541-544: `if (cleared) { ws = ni; cleared = false; }`. -/
def applyClear (s : Playback) : Playback :=
  if s.cleared then { s with ws := s.ni, cleared := false } else s

/-- The arguments `first`, `count` of the `glDrawArrays` call of line 545. -/
def drawRange (ws ni : Int) : Int × Int :=
  (max ws (ni - PERSISTENCE), min (ni - ws) PERSISTENCE)

/-- The state at the `glDrawArrays` call of line 545 of a frame started in `s`. -/
def frameAtDraw (vsize : Nat) (breaks : List Int) (f : FrameInput) (s : Playback) :
    Option Playback :=
  (gate vsize breaks s).map fun g => applyClear (processInput f.keys g)

/-- Line 548: `t += dt`. -/
def advanceTime (dt : ℚ) (s : Playback) : Playback := { s with t := s.t + dt }

/-- One iteration of the frame loop. -/
def frame (vsize : Nat) (breaks : List Int) (f : FrameInput) (s : Playback) : Option Playback :=
  (frameAtDraw vsize breaks f s).map (advanceTime f.dt)

/-- The frame loop over a list of frame inputs. -/
def run (vsize : Nat) (breaks : List Int) : Playback → List FrameInput → Option Playback
  | s, [] => some s
  | s, f :: fs => (frame vsize breaks f s).bind fun s1 => run vsize breaks s1 fs

/-- A frame with no key held. -/
def tick (dt : ℚ) : FrameInput := { dt := dt, keys := Keys.none }

/-- A frame with exactly the given playback keys held. -/
def press (dt : ℚ) (r c f g p n : Bool) : FrameInput :=
  { dt := dt, keys := { keyR := r, keyC := c, keyF := f, keyG := g, keyP := p, keyN := n } }

/-! ## Scenarios -/

/-- A frame in which only `N` is held. -/
def pressN (dt : ℚ) : FrameInput := press dt false false false false false true

/-- A frame in which only `R` is held. -/
def pressR (dt : ℚ) : FrameInput := press dt true false false false false false

/-- A frame in which only `P` is held. -/
def pressP (dt : ℚ) : FrameInput := press dt false false false false true false

/-- A frame in which only `F` is held. -/
def pressF (dt : ℚ) : FrameInput := press dt false false true false false false

/-- A frame in which `C` and `F` are held together. -/
def pressCF (dt : ℚ) : FrameInput := press dt false true true false false false

/-- Twenty frames per second, one index per frame: playback from the start up to and
including the first frame held at the second breakpoint of `[5, 12]`, the first one
released by `N` in the frame after its hold began. -/
def toSecondBreak : List FrameInput :=
  List.replicate 6 (tick (1 / 20)) ++ [pressN (1 / 20)] ++ List.replicate 7 (tick (1 / 20))

/-- Five ticks, an advance, and one more tick. -/
def tickThenAdvance : List FrameInput :=
  List.replicate 5 (tick (1 / 20)) ++ [pressN (1 / 20), tick (1 / 20)]

/-! ## Predicates on runs -/

/-- The gating test of line 504 in state `s` (with `ni` as recomputed in line 503);
`false` too when `breaks` is empty or the lookup is outside the vector. -/
def gateFires (vsize : Nat) (breaks : List Int) (s : Playback) : Bool :=
  match breakAt breaks (s.lastBreakIndex + 1) with
  | Option.none => false
  | some b => decide (b ≥ s.ni ∧ b ≤ min (numPoints vsize) (rawIndex s.t))

/-- A run in which `R` is never held and the gating test never fires: every frame has a
result, and the test is false at the start of each of them. -/
def quietRun (vsize : Nat) (breaks : List Int) : Playback → List FrameInput → Bool
  | _, [] => true
  | s, f :: fs =>
    !f.keys.keyR && !gateFires vsize breaks s &&
      match frame vsize breaks f s with
      | Option.none => false
      | some s1 => quietRun vsize breaks s1 fs

/-- A frame with `dt ≥ 0` in which none of `N`, `F`, `R` is held. -/
def holdFrame (f : FrameInput) : Prop :=
  0 ≤ f.dt ∧ f.keys.keyN = false ∧ f.keys.keyF = false ∧ f.keys.keyR = false

/-- The states the frame loop reaches from the initial state. -/
def Reachable (vsize : Nat) (breaks : List Int) (s : Playback) : Prop :=
  ∃ fs : List FrameInput, run vsize breaks Playback.init fs = some s

/-- While `broken` is set, `bt` is a clock value whose index has reached a breakpoint at
or after the next unpassed one; and `lastBreakIndex` is at least `-1`. -/
def HoldTimeInv (vsize : Nat) (breaks : List Int) (s : Playback) : Prop :=
  -1 ≤ s.lastBreakIndex ∧
  (s.broken = true → ∃ (k : Nat) (bk : Int), s.lastBreakIndex + 1 ≤ (k : Int) ∧
    breaks[k]? = some bk ∧ bk ≤ min (numPoints vsize) (rawIndex s.bt))

/-- Playback is held at index `p` with hold time `h`: `broken` is set with `bt = h`, no
advance is pending, the clock is not before `h`, and the next unpassed breakpoint lies
between `p` and the index of `h`. -/
def Held (vsize : Nat) (breaks : List Int) (p : Int) (h : ℚ) (s : Playback) : Prop :=
  s.broken = true ∧ s.pass_break = false ∧ s.ni = p ∧ s.bt = h ∧ h ≤ s.t ∧
  ∃ b, breakAt breaks (s.lastBreakIndex + 1) = some b ∧ p ≤ b ∧
    b ≤ min (numPoints vsize) (rawIndex h)

/-! ## Camera -/

/-- A `glm::vec3`. -/
structure Vec3 (α : Type) where
  x : α
  y : α
  z : α

/-- The library functions the camera calls that are not field arithmetic: `cos` and `sin`
of `<cmath>`, `glm::inversesqrt` (used by `glm::normalize`) and `glm::radians`. -/
structure MathFns (α : Type) where
  cos : α → α
  sin : α → α
  inversesqrt : α → α
  radians : α → α

/-- `enum class Camera_Movement`. -/
inductive Camera_Movement where
  | FORWARD
  | BACKWARD
  | LEFT
  | RIGHT
  | UP
  | DOWN
  deriving DecidableEq

/-- `enum class Camera_View`. -/
inductive Camera_View where
  | FRONT
  | RIGHT
  | BACK
  | LEFT
  deriving DecidableEq

/-- `glm::dot`. -/
def Vec3.dot {α : Type} [Field α] (a b : Vec3 α) : α := a.x * b.x + a.y * b.y + a.z * b.z

/-- `glm::cross`. -/
def Vec3.cross {α : Type} [Field α] (a b : Vec3 α) : Vec3 α :=
  { x := a.y * b.z - b.y * a.z, y := a.z * b.x - b.z * a.x, z := a.x * b.y - b.x * a.y }

/-- The product `v * c` of a vector and a scalar. -/
def Vec3.scale {α : Type} [Field α] (v : Vec3 α) (c : α) : Vec3 α :=
  { x := v.x * c, y := v.y * c, z := v.z * c }

/-- `glm::normalize`: `v * inversesqrt(dot(v, v))`. -/
def Vec3.normalize {α : Type} [Field α] (m : MathFns α) (v : Vec3 α) : Vec3 α :=
  v.scale (m.inversesqrt (v.dot v))

/-- `glm::rotateZ`. -/
def Vec3.rotateZ {α : Type} [Field α] (m : MathFns α) (v : Vec3 α) (angle : α) : Vec3 α :=
  { x := v.x * m.cos angle - v.y * m.sin angle, y := v.x * m.sin angle + v.y * m.cos angle,
    z := v.z }

/-- The data members of `class Camera`. -/
structure Camera (α : Type) where
  Position : Vec3 α
  Front : Vec3 α
  Up : Vec3 α
  Right : Vec3 α
  WorldUp : Vec3 α
  Yaw : α
  Pitch : α
  Roll : α
  MovementSpeed : α
  MouseSensitivity : α
  Zoom : α

/-- `Camera::updateCameraVectors` (lines 213-224). -/
def Camera.updateCameraVectors {α : Type} [Field α] (m : MathFns α) (c : Camera α) :
    Camera α :=
  let front : Vec3 α :=
    { x := m.cos (m.radians c.Yaw) * m.cos (m.radians c.Pitch),
      y := m.sin (m.radians c.Pitch),
      z := m.sin (m.radians c.Yaw) * m.cos (m.radians c.Pitch) }
  let Front := front.normalize m
  let Right := ((Front.cross c.WorldUp).rotateZ m (m.radians c.Roll)).normalize m
  let Up := (Right.cross Front).normalize m
  { c with Front := Front, Right := Right, Up := Up }

/-- The constructor with vectors (lines 105-113), with its default arguments
`up = (0, 1, 0)`, `yaw = CAM_YAW`, `pitch = CAM_PITCH`, `roll = CAM_ROLL`. -/
def Camera.new {α : Type} [Field α] (m : MathFns α) (position : Vec3 α) : Camera α :=
  Camera.updateCameraVectors m
    { Position := position, Front := { x := 0, y := 0, z := -1 },
      Up := { x := 0, y := 0, z := 0 }, Right := { x := 0, y := 0, z := 0 },
      WorldUp := { x := 0, y := 1, z := 0 }, Yaw := -90, Pitch := 0, Roll := 0,
      MovementSpeed := 5, MouseSensitivity := 1 / 10, Zoom := 45 }

/-- `Camera::ProcessMouseMovement` (lines 150-169). -/
def Camera.ProcessMouseMovement {α : Type} [LinearOrderedField α] (m : MathFns α)
    (xoffset yoffset : α) (constrainPitch : Bool) (c : Camera α) : Camera α :=
  let xoffset := xoffset * c.MouseSensitivity
  let yoffset := yoffset * c.MouseSensitivity
  let yaw := c.Yaw + (m.cos (m.radians c.Roll) * xoffset + m.sin (m.radians c.Roll) * yoffset)
  let pitch := c.Pitch - (m.cos (m.radians c.Roll) * yoffset - m.sin (m.radians c.Roll) * xoffset)
  let pitch1 := if constrainPitch then (if pitch > 89 then 89 else pitch) else pitch
  let pitch2 := if constrainPitch then (if pitch1 < -89 then -89 else pitch1) else pitch1
  Camera.updateCameraVectors m { c with Yaw := yaw, Pitch := pitch2 }

/-- `Camera::SetUnitView` (lines 181-200). -/
def Camera.SetUnitView {α : Type} [Field α] (m : MathFns α) (view : Camera_View)
    (c : Camera α) : Camera α :=
  let DISTANCE : α := 30
  let c1 := { c with Pitch := 0, Roll := 0 }
  let c2 :=
    match view with
    | Camera_View.FRONT => { c1 with Position := { x := 0, y := 0, z := DISTANCE }, Yaw := -90 }
    | Camera_View.RIGHT => { c1 with Position := { x := DISTANCE, y := 0, z := 0 }, Yaw := 180 }
    | Camera_View.BACK => { c1 with Position := { x := 0, y := 0, z := -DISTANCE }, Yaw := 90 }
    | Camera_View.LEFT => { c1 with Position := { x := -DISTANCE, y := 0, z := 0 }, Yaw := 0 }
  Camera.updateCameraVectors m c2

/-- `Camera::Rotate` (lines 202-209). -/
def Camera.Rotate {α : Type} [Field α] (m : MathFns α) (direction : Camera_Movement)
    (c : Camera α) : Camera α :=
  let c1 :=
    if direction = Camera_Movement.LEFT then { c with Roll := c.Roll + 90 }
    else if direction = Camera_Movement.RIGHT then { c with Roll := c.Roll - 90 }
    else c
  Camera.updateCameraVectors m c1

/-- The camera of line 227 after a look of `+450` raw pixels to the right and one
`Rotate(LEFT)`. -/
def lookThenRoll {α : Type} [LinearOrderedField α] (m : MathFns α) : Camera α :=
  Camera.Rotate m Camera_Movement.LEFT
    (Camera.ProcessMouseMovement m 450 0 true (Camera.new m { x := 0, y := 0, z := 0 }))

end Vis

namespace Vis


/-! ## Render window -/

/-- C5: for `0 ≤ ws ≤ ni` the range drawn by line 545, `first = max(ws, ni - 50)` and
`count = min(ni - ws, 50)`, is exactly the half-open range `[max(ws, ni - 50), ni)`:
`first + count = ni`, `0 ≤ count ≤ 50`, an index lies in the drawn range iff it lies in
`[max(ws, ni - 50), ni)`, the range is empty when `ni = ws`, and the range drawn right
after the clear step `ws = ni` is empty. -/
theorem drawRange_window (ws ni : Int) (h0 : 0 ≤ ws) (h1 : ws ≤ ni) :
    (drawRange ws ni).1 = max ws (ni - 50) ∧
    (drawRange ws ni).2 = min (ni - ws) 50 ∧
    (drawRange ws ni).1 + (drawRange ws ni).2 = ni ∧
    0 ≤ (drawRange ws ni).2 ∧ (drawRange ws ni).2 ≤ 50 ∧
    (∀ i : Int, ((drawRange ws ni).1 ≤ i ∧ i < (drawRange ws ni).1 + (drawRange ws ni).2) ↔
      (max ws (ni - 50) ≤ i ∧ i < ni)) ∧
    (ni = ws → (drawRange ws ni).2 = 0) ∧
    (∀ s : Playback, s.ni = ni → s.cleared = true →
      (drawRange (applyClear s).ws (applyClear s).ni).2 = 0) := by
  have hsum : max ws (ni - 50) + min (ni - ws) 50 = ni := by
    rcases le_total (ni - ws) 50 with h | h
    · rw [min_eq_left h, max_eq_left (by omega)]; omega
    · rw [min_eq_right h, max_eq_right (by omega)]; omega
  refine ⟨rfl, rfl, hsum, ?_, ?_, ?_, ?_, ?_⟩
  · exact le_min (by omega) (by decide)
  · exact min_le_right _ _
  · intro i
    show (max ws (ni - 50) ≤ i ∧ i < max ws (ni - 50) + min (ni - ws) 50) ↔ _
    rw [hsum]
  · intro h
    subst h
    show min (ni - ni) 50 = 0
    simp
  · intro s _ hc
    simp [applyClear, hc, drawRange, PERSISTENCE]

/-- The render window of C5 at `ws = 10`, `ni = 70`. -/
theorem drawRange_window_witness :
    (0 : Int) ≤ 10 ∧ (10 : Int) ≤ 70 ∧ (drawRange 10 70).1 + (drawRange 10 70).2 = 70 :=
  ⟨by decide, by decide, (drawRange_window 10 70 (by decide) (by decide)).2.2.1⟩

/-! ## Scenarios evaluated on the frame loop -/

/-- C1: with `breaks = [5, 12]`, 20 points and one-second frames, the frame that consumes
the first advance leaves `ni = 20` although `breaks[lastBreakIndex + 1] = 12` is not
passed; two frames later the state is the same, not held, with no second advance issued. -/
theorem gating_skips_second_break :
    (run 60 [5, 12] Playback.init [tick 1, tick 1, pressN 1, tick 1]).map
        (fun s => (s.lastBreakIndex, breakAt [5, 12] (s.lastBreakIndex + 1), s.ni,
          decide (s.ni ≤ 12), s.broken))
      = some (0, some 12, 20, false, false) ∧
    (run 60 [5, 12] Playback.init [tick 1, tick 1, pressN 1, tick 1, tick 1, tick 1]).map
        (fun s => (s.lastBreakIndex, breakAt [5, 12] (s.lastBreakIndex + 1), s.ni,
          decide (s.ni ≤ 12), s.broken))
      = some (0, some 12, 20, false, false) := by
  constructor <;> decide!

/-- C2, as stated, fails: with `breaks = [5, 12]` and 20 points, after one frame of one
second the gating test fires for `b = 5` (`ni = 0 ≤ 5 ≤ 20`) with no advance pending, and
the gating step holds playback with `ni = 0`, not `5`. -/
theorem hold_index_not_break :
    ∃ s g, run 60 [5, 12] Playback.init [tick 1] = some s ∧
      breakAt [5, 12] (s.lastBreakIndex + 1) = some 5 ∧
      s.ni ≤ 5 ∧ 5 ≤ min (numPoints 60) (rawIndex s.t) ∧ s.pass_break = false ∧
      gate 60 [5, 12] s = some g ∧ g.broken = true ∧ g.ni = 0 ∧ g.ni ≠ 5 := by
  refine ⟨{ Playback.init with t := 1 }, { Playback.init with t := 1, bt := 1, broken := true },
    ?_, ?_, ?_, ?_, ?_, ?_, ?_, ?_, ?_⟩ <;> decide!

/-- C3: `P` sets `paused`, and the next frame, with no key held and `dt = 1`, moves `t`
from `1/60` to `61/60` while `paused` is true; the frame after it shows index 20. -/
theorem paused_frame_advances_cursor :
    (run 60 [] Playback.init [pressP (1 / 60)]).map (fun s => (s.paused, s.t, s.ni))
      = some (true, 1 / 60, 0) ∧
    (run 60 [] Playback.init [pressP (1 / 60), tick 1]).map (fun s => (s.paused, s.t, s.ni))
      = some (true, 61 / 60, 0) ∧
    (run 60 [] Playback.init [pressP (1 / 60), tick 1, tick 1]).map
        (fun s => (s.paused, s.t, s.ni))
      = some (true, 121 / 60, 20) := by
  refine ⟨?_, ?_, ?_⟩ <;> decide!

/-- C4: with `breaks = [5, 12]` and 20 points, `R` pressed while playback is held at the
second breakpoint leaves `broken = true` and `bt = 3/5`, where a fresh start after one
frame has `broken = false` and `bt = 0`; the same seven frames played after each end with
index 13 and cursor `7/10` after the reset, index 6 and cursor `7/20` after the fresh start. -/
theorem reset_keeps_hold :
    run 60 [5, 12] Playback.init (toSecondBreak ++ [pressR (1 / 20)])
      = some { Playback.init with t := 1 / 20, broken := true, bt := 3 / 5 } ∧
    run 60 [5, 12] Playback.init [tick (1 / 20)]
      = some { Playback.init with t := 1 / 20 } ∧
    run 60 [5, 12] Playback.init (toSecondBreak ++ [pressR (1 / 20)] ++ tickThenAdvance)
      = some { Playback.init with t := 7 / 10, ni := 13, lastBreakIndex := 0, bt := 3 / 5 } ∧
    run 60 [5, 12] Playback.init ([tick (1 / 20)] ++ tickThenAdvance)
      = some { Playback.init with t := 7 / 20, ni := 6, lastBreakIndex := 0, bt := 1 / 4 } := by
  refine ⟨?_, ?_, ?_, ?_⟩ <;> decide!

/-- C6: with 20 points and no breaks, sixty frames per second: after thirty frames, a
frame with `C` and `F` held and then a frame with no key held reaches the draw call with
`ni = 9` and `ws = 10`, and the count passed to `glDrawArrays` is `-1`. -/
theorem clear_with_rewind_breaks_window :
    ((run 60 [] Playback.init (List.replicate 30 (tick (1 / 60)) ++ [pressCF (1 / 60)])).bind
        (frameAtDraw 60 [] (tick (1 / 60)))).map
        (fun s => (s.ni, s.ws, drawRange s.ws s.ni))
      = some (9, 10, (10, -1)) := by
  decide!

/-- C9: with `breaks = [5, 12]` and 20 points, in the frame after the second advance is
consumed `lastBreakIndex + 1 = 2 = breaks.size()`: the read of `breaks[lastBreakIndex + 1]`
is outside the vector and the frame has no defined result. -/
theorem break_lookup_out_of_range :
    (run 60 [5, 12] Playback.init (toSecondBreak ++ [pressN (1 / 20), tick (1 / 20)])).map
        (fun s => (s.lastBreakIndex, s.ni, breakAt [5, 12] (s.lastBreakIndex + 1),
          gate 60 [5, 12] s))
      = some (1, 13, none, none) ∧
    run 60 [5, 12] Playback.init
        (toSecondBreak ++ [pressN (1 / 20), tick (1 / 20), tick (1 / 20)]) = none := by
  constructor <;> decide!

/-! ## Fields left alone by the key handlers -/

@[simp]
theorem inputR_cleared (k : Keys) (s : Playback) : (inputR k s).cleared = s.cleared := by
  simp only [inputR]
  split_ifs <;> rfl

@[simp]
theorem inputR_bt (k : Keys) (s : Playback) : (inputR k s).bt = s.bt := by
  simp only [inputR]
  split_ifs <;> rfl

@[simp]
theorem inputR_broken (k : Keys) (s : Playback) : (inputR k s).broken = s.broken := by
  simp only [inputR]
  split_ifs <;> rfl

@[simp]
theorem inputC_t (k : Keys) (s : Playback) : (inputC k s).t = s.t := by
  simp only [inputC]
  split_ifs <;> rfl

@[simp]
theorem inputC_ni (k : Keys) (s : Playback) : (inputC k s).ni = s.ni := by
  simp only [inputC]
  split_ifs <;> rfl

@[simp]
theorem inputC_ws (k : Keys) (s : Playback) : (inputC k s).ws = s.ws := by
  simp only [inputC]
  split_ifs <;> rfl

@[simp]
theorem inputC_lastBreakIndex (k : Keys) (s : Playback) :
    (inputC k s).lastBreakIndex = s.lastBreakIndex := by
  simp only [inputC]
  split_ifs <;> rfl

@[simp]
theorem inputC_pass_break (k : Keys) (s : Playback) : (inputC k s).pass_break = s.pass_break := by
  simp only [inputC]
  split_ifs <;> rfl

@[simp]
theorem inputC_bt (k : Keys) (s : Playback) : (inputC k s).bt = s.bt := by
  simp only [inputC]
  split_ifs <;> rfl

@[simp]
theorem inputC_broken (k : Keys) (s : Playback) : (inputC k s).broken = s.broken := by
  simp only [inputC]
  split_ifs <;> rfl

@[simp]
theorem inputF_ni (k : Keys) (s : Playback) : (inputF k s).ni = s.ni := by
  simp only [inputF]
  split_ifs <;> rfl

@[simp]
theorem inputF_lastBreakIndex (k : Keys) (s : Playback) :
    (inputF k s).lastBreakIndex = s.lastBreakIndex := by
  simp only [inputF]
  split_ifs <;> rfl

@[simp]
theorem inputF_cleared (k : Keys) (s : Playback) : (inputF k s).cleared = s.cleared := by
  simp only [inputF]
  split_ifs <;> rfl

@[simp]
theorem inputF_pass_break (k : Keys) (s : Playback) : (inputF k s).pass_break = s.pass_break := by
  simp only [inputF]
  split_ifs <;> rfl

@[simp]
theorem inputF_bt (k : Keys) (s : Playback) : (inputF k s).bt = s.bt := by
  simp only [inputF]
  split_ifs <;> rfl

@[simp]
theorem inputF_broken (k : Keys) (s : Playback) : (inputF k s).broken = s.broken := by
  simp only [inputF]
  split_ifs <;> rfl

@[simp]
theorem inputG_ni (k : Keys) (s : Playback) : (inputG k s).ni = s.ni := by
  simp only [inputG]
  split_ifs <;> rfl

@[simp]
theorem inputG_ws (k : Keys) (s : Playback) : (inputG k s).ws = s.ws := by
  simp only [inputG]
  split_ifs <;> rfl

@[simp]
theorem inputG_lastBreakIndex (k : Keys) (s : Playback) :
    (inputG k s).lastBreakIndex = s.lastBreakIndex := by
  simp only [inputG]
  split_ifs <;> rfl

@[simp]
theorem inputG_cleared (k : Keys) (s : Playback) : (inputG k s).cleared = s.cleared := by
  simp only [inputG]
  split_ifs <;> rfl

@[simp]
theorem inputG_pass_break (k : Keys) (s : Playback) : (inputG k s).pass_break = s.pass_break := by
  simp only [inputG]
  split_ifs <;> rfl

@[simp]
theorem inputG_bt (k : Keys) (s : Playback) : (inputG k s).bt = s.bt := by
  simp only [inputG]
  split_ifs <;> rfl

@[simp]
theorem inputG_broken (k : Keys) (s : Playback) : (inputG k s).broken = s.broken := by
  simp only [inputG]
  split_ifs <;> rfl

@[simp]
theorem inputP_t (k : Keys) (s : Playback) : (inputP k s).t = s.t := by
  simp only [inputP]
  split_ifs <;> rfl

@[simp]
theorem inputP_ni (k : Keys) (s : Playback) : (inputP k s).ni = s.ni := by
  simp only [inputP]
  split_ifs <;> rfl

@[simp]
theorem inputP_ws (k : Keys) (s : Playback) : (inputP k s).ws = s.ws := by
  simp only [inputP]
  split_ifs <;> rfl

@[simp]
theorem inputP_lastBreakIndex (k : Keys) (s : Playback) :
    (inputP k s).lastBreakIndex = s.lastBreakIndex := by
  simp only [inputP]
  split_ifs <;> rfl

@[simp]
theorem inputP_cleared (k : Keys) (s : Playback) : (inputP k s).cleared = s.cleared := by
  simp only [inputP]
  split_ifs <;> rfl

@[simp]
theorem inputP_pass_break (k : Keys) (s : Playback) : (inputP k s).pass_break = s.pass_break := by
  simp only [inputP]
  split_ifs <;> rfl

@[simp]
theorem inputP_bt (k : Keys) (s : Playback) : (inputP k s).bt = s.bt := by
  simp only [inputP]
  split_ifs <;> rfl

@[simp]
theorem inputP_broken (k : Keys) (s : Playback) : (inputP k s).broken = s.broken := by
  simp only [inputP]
  split_ifs <;> rfl

@[simp]
theorem inputN_t (k : Keys) (s : Playback) : (inputN k s).t = s.t := by
  simp only [inputN]
  split_ifs <;> rfl

@[simp]
theorem inputN_ni (k : Keys) (s : Playback) : (inputN k s).ni = s.ni := by
  simp only [inputN]
  split_ifs <;> rfl

@[simp]
theorem inputN_ws (k : Keys) (s : Playback) : (inputN k s).ws = s.ws := by
  simp only [inputN]
  split_ifs <;> rfl

@[simp]
theorem inputN_lastBreakIndex (k : Keys) (s : Playback) :
    (inputN k s).lastBreakIndex = s.lastBreakIndex := by
  simp only [inputN]
  split_ifs <;> rfl

@[simp]
theorem inputN_cleared (k : Keys) (s : Playback) : (inputN k s).cleared = s.cleared := by
  simp only [inputN]
  split_ifs <;> rfl

@[simp]
theorem inputN_bt (k : Keys) (s : Playback) : (inputN k s).bt = s.bt := by
  simp only [inputN]
  split_ifs <;> rfl

@[simp]
theorem inputN_broken (k : Keys) (s : Playback) : (inputN k s).broken = s.broken := by
  simp only [inputN]
  split_ifs <;> rfl

theorem toInt_mono {x y : ℚ} (h : x ≤ y) : toInt x ≤ toInt y := by
  unfold toInt
  split_ifs with hx hy hy
  · exact Int.floor_mono h
  · exact absurd (hx.trans h) hy
  · have h1 : ⌈x⌉ ≤ 0 := Int.ceil_le.mpr (by push_cast; exact le_of_lt (not_le.mp hx))
    have h2 : 0 ≤ ⌊y⌋ := Int.floor_nonneg.mpr hy
    exact h1.trans h2
  · exact Int.ceil_mono h

theorem rawIndex_mono {x y : ℚ} (h : x ≤ y) : rawIndex x ≤ rawIndex y := by
  unfold rawIndex
  apply toInt_mono
  have : (0 : ℚ) ≤ (SPEED : ℚ) := by norm_num [SPEED]
  have h1 : x * (SPEED : ℚ) ≤ y * (SPEED : ℚ) := mul_le_mul_of_nonneg_right h this
  exact div_le_div_of_nonneg_right h1 (by norm_num)

theorem processInput_broken (k : Keys) (s : Playback) :
    (processInput k s).broken = s.broken := by
  simp [processInput]

theorem processInput_bt (k : Keys) (s : Playback) : (processInput k s).bt = s.bt := by
  simp [processInput]

theorem inputR_off (k : Keys) (s : Playback) (hR : k.keyR = false) : inputR k s = s := by
  simp [inputR, hR]

theorem inputF_off (k : Keys) (s : Playback) (hF : k.keyF = false) : inputF k s = s := by
  simp [inputF, hF]

theorem inputN_off_pass_break (k : Keys) (s : Playback) (hN : k.keyN = false) :
    (inputN k s).pass_break = s.pass_break := by
  simp [inputN, hN]

theorem inputG_t_ge (k : Keys) (s : Playback) : s.t ≤ (inputG k s).t := by
  simp only [inputG]
  split_ifs
  · show s.t ≤ s.t + 4 / 100
    linarith
  · exact le_refl _

theorem processInput_ni (k : Keys) (s : Playback) (hR : k.keyR = false) :
    (processInput k s).ni = s.ni := by
  simp [processInput, inputR_off k s hR]

theorem processInput_lastBreakIndex (k : Keys) (s : Playback) (hR : k.keyR = false) :
    (processInput k s).lastBreakIndex = s.lastBreakIndex := by
  simp [processInput, inputR_off k s hR]

theorem processInput_pass_break (k : Keys) (s : Playback) (hR : k.keyR = false)
    (hN : k.keyN = false) : (processInput k s).pass_break = s.pass_break := by
  simp [processInput, inputR_off k s hR, inputN_off_pass_break _ _ hN]

theorem processInput_t_ge (k : Keys) (s : Playback) (hR : k.keyR = false)
    (hF : k.keyF = false) : s.t ≤ (processInput k s).t := by
  have h := inputG_t_ge k (inputF k (inputC k (inputR k s)))
  simpa [processInput, inputR_off k s hR, inputF_off k _ hF] using h

@[simp]
theorem applyClear_ni (s : Playback) : (applyClear s).ni = s.ni := by
  simp only [applyClear]; split_ifs <;> rfl

@[simp]
theorem applyClear_t (s : Playback) : (applyClear s).t = s.t := by
  simp only [applyClear]; split_ifs <;> rfl

@[simp]
theorem applyClear_bt (s : Playback) : (applyClear s).bt = s.bt := by
  simp only [applyClear]; split_ifs <;> rfl

@[simp]
theorem applyClear_broken (s : Playback) : (applyClear s).broken = s.broken := by
  simp only [applyClear]; split_ifs <;> rfl

@[simp]
theorem applyClear_pass_break (s : Playback) : (applyClear s).pass_break = s.pass_break := by
  simp only [applyClear]; split_ifs <;> rfl

@[simp]
theorem applyClear_lastBreakIndex (s : Playback) :
    (applyClear s).lastBreakIndex = s.lastBreakIndex := by
  simp only [applyClear]; split_ifs <;> rfl

/-! ## The gating step -/

theorem breakAt_some_length {breaks : List Int} {i b : Int} (h : breakAt breaks i = some b) :
    breaks.length > 0 := by
  unfold breakAt at h
  split_ifs at h
  cases breaks with
  | nil => simp at h
  | cons a l => simp

theorem gate_hold (vsize : Nat) (breaks : List Int) (s : Playback) (b : Int)
    (hb : breakAt breaks (s.lastBreakIndex + 1) = some b) (h1 : s.ni ≤ b)
    (h2 : b ≤ min (numPoints vsize) (rawIndex s.t)) (hp : s.pass_break = false) :
    gate vsize breaks s =
      some { s with t := if s.broken then s.bt else s.t,
                    bt := if s.broken then s.bt else s.t, broken := true } := by
  have hl := breakAt_some_length hb
  have hc : b ≥ s.ni ∧ b ≤ min (numPoints vsize) (rawIndex s.t) := ⟨h1, h2⟩
  simp only [gate, hl, hb, hp, hc]
  simp

theorem gate_pass (vsize : Nat) (breaks : List Int) (s : Playback) (b : Int)
    (hb : breakAt breaks (s.lastBreakIndex + 1) = some b) (h1 : s.ni ≤ b)
    (h2 : b ≤ min (numPoints vsize) (rawIndex s.t)) (hp : s.pass_break = true) :
    gate vsize breaks s =
      some { s with ni := min (numPoints vsize) (rawIndex s.t),
                    bt := if s.broken then s.bt else s.t, pass_break := false,
                    broken := false, lastBreakIndex := s.lastBreakIndex + 1 } := by
  have hl := breakAt_some_length hb
  have hc : b ≥ s.ni ∧ b ≤ min (numPoints vsize) (rawIndex s.t) := ⟨h1, h2⟩
  simp only [gate, hl, hb, hp, hc]
  simp

theorem gate_quiet (vsize : Nat) (breaks : List Int) (s g : Playback)
    (hq : gateFires vsize breaks s = false) (hg : gate vsize breaks s = some g) :
    g = { s with ni := min (numPoints vsize) (rawIndex s.t) } := by
  unfold gateFires at hq
  by_cases hl : breaks.length > 0
  · cases hb : breakAt breaks (s.lastBreakIndex + 1) with
    | none => simp [gate, hl, hb] at hg
    | some b =>
      simp only [hb, decide_eq_false_iff_not] at hq
      simp only [gate, hl, hb, hq, if_false, if_true] at hg
      exact (Option.some.inj hg).symm
  · simp only [gate, hl, if_false] at hg
    exact (Option.some.inj hg).symm

theorem frame_of_gate (vsize : Nat) (breaks : List Int) (f : FrameInput) (s g : Playback)
    (hg : gate vsize breaks s = some g) :
    frame vsize breaks f s = some (advanceTime f.dt (applyClear (processInput f.keys g))) := by
  simp [frame, frameAtDraw, hg]

theorem gate_of_frame (vsize : Nat) (breaks : List Int) (f : FrameInput) (s s1 : Playback)
    (hf : frame vsize breaks f s = some s1) :
    ∃ g, gate vsize breaks s = some g ∧
      s1 = advanceTime f.dt (applyClear (processInput f.keys g)) := by
  cases hg : gate vsize breaks s with
  | none => simp [frame, frameAtDraw, hg] at hf
  | some g =>
    rw [frame_of_gate vsize breaks f s g hg] at hf
    exact ⟨g, rfl, (Option.some.inj hf).symm⟩

/-! ## Holds -/

theorem sorted_getElem_le {breaks : List Int} (hs : breaks.Pairwise (· < ·)) {i k : Nat}
    {a c : Int} (hik : i ≤ k) (ha : breaks[i]? = some a) (hc : breaks[k]? = some c) :
    a ≤ c := by
  obtain ⟨hi, rfl⟩ := List.getElem?_eq_some.mp ha
  obtain ⟨hk, rfl⟩ := List.getElem?_eq_some.mp hc
  rcases Nat.lt_or_eq_of_le hik with h | h
  · exact le_of_lt (List.pairwise_iff_getElem.mp hs i k hi hk h)
  · subst h
    exact le_refl _

theorem breakAt_getElem {breaks : List Int} {i b : Int} (h : breakAt breaks i = some b) :
    0 ≤ i ∧ breaks[i.toNat]? = some b := by
  unfold breakAt at h
  split_ifs at h with h0
  exact ⟨h0, h⟩

theorem processInput_lastBreakIndex_cases (k : Keys) (s : Playback) :
    (processInput k s).lastBreakIndex = s.lastBreakIndex ∨
      (processInput k s).lastBreakIndex = -1 := by
  cases hR : k.keyR with
  | false => exact Or.inl (processInput_lastBreakIndex k s hR)
  | true => right; simp [processInput, inputR, hR]

theorem holdTimeInv_init (vsize : Nat) (breaks : List Int) :
    HoldTimeInv vsize breaks Playback.init :=
  ⟨le_refl _, fun h => by simp [Playback.init] at h⟩

theorem holdTimeInv_gate (vsize : Nat) (breaks : List Int) (s g : Playback)
    (hi : HoldTimeInv vsize breaks s) (hg : gate vsize breaks s = some g) :
    HoldTimeInv vsize breaks g := by
  obtain ⟨hlb, hbr⟩ := hi
  cases hf : gateFires vsize breaks s with
  | false =>
    rw [gate_quiet vsize breaks s g hf hg]
    exact ⟨hlb, hbr⟩
  | true =>
    unfold gateFires at hf
    cases hb : breakAt breaks (s.lastBreakIndex + 1) with
    | none => simp [hb] at hf
    | some b =>
      simp only [hb, decide_eq_true_eq] at hf
      obtain ⟨h1, h2⟩ := hf
      cases hp : s.pass_break with
      | true =>
        rw [gate_pass vsize breaks s b hb h1 h2 hp] at hg
        rw [← Option.some.inj hg]
        refine ⟨?_, fun h => ?_⟩
        · show -1 ≤ s.lastBreakIndex + 1
          omega
        · simp at h
      | false =>
        rw [gate_hold vsize breaks s b hb h1 h2 hp] at hg
        rw [← Option.some.inj hg]
        refine ⟨hlb, fun _ => ?_⟩
        show ∃ (k : Nat) (bk : Int), s.lastBreakIndex + 1 ≤ (k : Int) ∧
          breaks[k]? = some bk ∧
          bk ≤ min (numPoints vsize) (rawIndex (if s.broken then s.bt else s.t))
        cases hbk : s.broken with
        | true => simpa using hbr hbk
        | false =>
          obtain ⟨h0, hget⟩ := breakAt_getElem hb
          refine ⟨(s.lastBreakIndex + 1).toNat, b, ?_, hget, ?_⟩
          · rw [Int.toNat_of_nonneg h0]
          · simpa using h2

theorem holdTimeInv_frame (vsize : Nat) (breaks : List Int) (f : FrameInput) (s s1 : Playback)
    (hi : HoldTimeInv vsize breaks s) (hf : frame vsize breaks f s = some s1) :
    HoldTimeInv vsize breaks s1 := by
  obtain ⟨g, hg, rfl⟩ := gate_of_frame vsize breaks f s s1 hf
  obtain ⟨hlb, hbr⟩ := holdTimeInv_gate vsize breaks s g hi hg
  have hbroken : (advanceTime f.dt (applyClear (processInput f.keys g))).broken = g.broken := by
    simp [advanceTime, processInput_broken]
  have hbt : (advanceTime f.dt (applyClear (processInput f.keys g))).bt = g.bt := by
    simp [advanceTime, processInput_bt]
  have hl : (advanceTime f.dt (applyClear (processInput f.keys g))).lastBreakIndex
      = (processInput f.keys g).lastBreakIndex := by
    simp [advanceTime]
  unfold HoldTimeInv
  rw [hbroken, hbt, hl]
  rcases processInput_lastBreakIndex_cases f.keys g with h | h
  · rw [h]
    exact ⟨hlb, hbr⟩
  · rw [h]
    refine ⟨le_refl _, fun hb => ?_⟩
    obtain ⟨k, bk, _, h2, h3⟩ := hbr hb
    exact ⟨k, bk, by omega, h2, h3⟩

theorem holdTimeInv_run (vsize : Nat) (breaks : List Int) (fs : List FrameInput) :
    ∀ s s1 : Playback, HoldTimeInv vsize breaks s → run vsize breaks s fs = some s1 →
      HoldTimeInv vsize breaks s1 := by
  induction fs with
  | nil =>
    intro s s1 hi hr
    simp only [run] at hr
    exact Option.some.inj hr ▸ hi
  | cons f fs ih =>
    intro s s1 hi hr
    simp only [run] at hr
    cases hf : frame vsize breaks f s with
    | none => simp [hf] at hr
    | some s2 =>
      simp only [hf, Option.some_bind] at hr
      exact ih s2 s1 (holdTimeInv_frame vsize breaks f s s2 hi hf) hr

theorem holdTimeInv_of_reachable (vsize : Nat) (breaks : List Int) (s : Playback)
    (h : Reachable vsize breaks s) : HoldTimeInv vsize breaks s := by
  obtain ⟨fs, hfs⟩ := h
  exact holdTimeInv_run vsize breaks fs _ _ (holdTimeInv_init vsize breaks) hfs

theorem held_after_frame (vsize : Nat) (breaks : List Int) (f : FrameInput) (g : Playback)
    (p : Int) (h : ℚ) (hf : holdFrame f) (hbroken : g.broken = true)
    (hpass : g.pass_break = false) (hni : g.ni = p) (hbt : g.bt = h) (ht : g.t = h)
    (hb : ∃ b, breakAt breaks (g.lastBreakIndex + 1) = some b ∧ p ≤ b ∧
      b ≤ min (numPoints vsize) (rawIndex h)) :
    Held vsize breaks p h (advanceTime f.dt (applyClear (processInput f.keys g))) ∧
      (advanceTime f.dt (applyClear (processInput f.keys g))).lastBreakIndex
        = g.lastBreakIndex := by
  obtain ⟨hdt, hN, hF, hR⟩ := hf
  have hl : (advanceTime f.dt (applyClear (processInput f.keys g))).lastBreakIndex
      = g.lastBreakIndex := by
    simp [advanceTime, processInput_lastBreakIndex _ _ hR]
  refine ⟨⟨?_, ?_, ?_, ?_, ?_, ?_⟩, hl⟩
  · simp [advanceTime, processInput_broken, hbroken]
  · simp [advanceTime, processInput_pass_break _ _ hR hN, hpass]
  · simp [advanceTime, processInput_ni _ _ hR, hni]
  · simp [advanceTime, processInput_bt, hbt]
  · have h1 := processInput_t_ge f.keys g hR hF
    show h ≤ (applyClear (processInput f.keys g)).t + f.dt
    rw [applyClear_t]
    linarith
  · rw [hl]
    exact hb

theorem held_gate (vsize : Nat) (breaks : List Int) (s : Playback) (p : Int) (h : ℚ)
    (hh : Held vsize breaks p h s) :
    ∃ g, gate vsize breaks s = some g ∧ g.ni = p ∧ g.t = h ∧ g.bt = h ∧
      g.broken = true ∧
      g.pass_break = false ∧ g.lastBreakIndex = s.lastBreakIndex := by
  obtain ⟨hbroken, hpass, hni, hbt, ht, b, hb, hpb, hbh⟩ := hh
  have h2 : b ≤ min (numPoints vsize) (rawIndex s.t) :=
    hbh.trans (min_le_min (le_refl _) (rawIndex_mono ht))
  refine ⟨_, gate_hold vsize breaks s b hb (hni ▸ hpb) h2 hpass, hni, ?_, ?_, rfl, hpass, rfl⟩
  · simp [hbroken, hbt]
  · simp [hbroken, hbt]

theorem held_frame (vsize : Nat) (breaks : List Int) (f : FrameInput) (s : Playback)
    (p : Int) (h : ℚ) (hh : Held vsize breaks p h s) (hf : holdFrame f) :
    ∃ s1, frame vsize breaks f s = some s1 ∧ Held vsize breaks p h s1 ∧
      s1.lastBreakIndex = s.lastBreakIndex := by
  obtain ⟨g, hg, hni, ht, hbt, hbroken, hpass, hl⟩ := held_gate vsize breaks s p h hh
  obtain ⟨_, _, _, _, _, hb⟩ := hh
  have := held_after_frame vsize breaks f g p h hf hbroken hpass hni hbt ht (hl ▸ hb)
  exact ⟨_, frame_of_gate vsize breaks f s g hg, this.1, this.2.trans hl⟩

theorem held_run (vsize : Nat) (breaks : List Int) (p : Int) (h : ℚ) (fs : List FrameInput) :
    ∀ s : Playback, Held vsize breaks p h s → (∀ f ∈ fs, holdFrame f) →
      ∃ s1, run vsize breaks s fs = some s1 ∧ Held vsize breaks p h s1 ∧
        s1.lastBreakIndex = s.lastBreakIndex := by
  induction fs with
  | nil => intro s hh _; exact ⟨s, rfl, hh, rfl⟩
  | cons f fs ih =>
    intro s hh hfs
    obtain ⟨s1, hs1, hh1, hl1⟩ :=
      held_frame vsize breaks f s p h hh (hfs f (List.mem_cons_self f fs))
    obtain ⟨s2, hs2, hh2, hl2⟩ := ih s1 hh1 (fun f1 hf1 => hfs f1 (List.mem_cons_of_mem f hf1))
    exact ⟨s2, by simp [run, hs1, hs2], hh2, hl2.trans hl1⟩

/-- C2 (amended): when the gating test of a frame fires for the next unpassed breakpoint
`b` (`ni ≤ b ≤ min(N, int(t * SPEED / 0.1))`) and no advance is pending, the gating step
holds playback with the index of the previous frame, which is at most `b`, whatever the
time step: `broken` is set, `ni` keeps its previous value, `t` is set to the hold time
`bt` (the clock of the frame in which the hold began), `lastBreakIndex` is unchanged, and
the frame ends with that index unless `R` is held. -/
theorem gate_holds_at_previous_index (vsize : Nat) (breaks : List Int) (s : Playback) (b : Int)
    (hb : breakAt breaks (s.lastBreakIndex + 1) = some b) (h1 : s.ni ≤ b)
    (h2 : b ≤ min (numPoints vsize) (rawIndex s.t)) (hp : s.pass_break = false) :
    ∃ g, gate vsize breaks s = some g ∧ g.broken = true ∧ g.ni = s.ni ∧ g.ni ≤ b ∧
      g.t = g.bt ∧ g.bt = (if s.broken then s.bt else s.t) ∧
      g.lastBreakIndex = s.lastBreakIndex ∧
      ∀ f : FrameInput, f.keys.keyR = false →
        ∃ s1, frame vsize breaks f s = some s1 ∧ s1.ni = s.ni ∧ s1.broken = true := by
  refine ⟨_, gate_hold vsize breaks s b hb h1 h2 hp, rfl, rfl, h1, rfl, rfl, rfl, ?_⟩
  intro f hR
  refine ⟨_, frame_of_gate vsize breaks f s _ (gate_hold vsize breaks s b hb h1 h2 hp), ?_, ?_⟩
  · simp [advanceTime, processInput_ni _ _ hR]
  · simp [advanceTime, processInput_broken]

/-- The hold of C2 for `breaks = [5, 12]`, 20 points, clock at one second, index 0: the
gating step holds with index 0. -/
theorem gate_holds_at_previous_index_witness :
    ∃ g, gate 60 [5, 12] { Playback.init with t := 1 } = some g ∧ g.broken = true ∧
      g.ni = 0 ∧ g.t = g.bt :=
  let ⟨g, hg, hbroken, hni, _, ht, _⟩ :=
    gate_holds_at_previous_index 60 [5, 12] { Playback.init with t := 1 } 5
      (by decide!) (by decide!) (by decide!) (by decide!)
  ⟨g, hg, hbroken, hni, ht⟩

/-- C8, as stated, fails: with `breaks = [5]` and 20 points, after a frame of `13/50` the
gating step of the second frame begins the hold with index 0 and `bt = 13/50`; `F` held
in that same frame rewinds the clock, and in the third frame, with no key held, `dt ≥ 0`
and no advance latched, the gating test does not fire: the index shown is 4, not 0, and
the clock is not set back to `bt`. -/
theorem rewind_in_holding_frame_ends_hold :
    ∃ s0 g0 s1 g1 s2, run 60 [5] Playback.init [tick (13 / 50)] = some s0 ∧
      gate 60 [5] s0 = some g0 ∧ g0.broken = true ∧ g0.ni = 0 ∧ g0.bt = 13 / 50 ∧
      g0.t = 13 / 50 ∧
      frame 60 [5] (pressF (1 / 100)) s0 = some s1 ∧ s1.broken = true ∧
      s1.pass_break = false ∧ s1.ni = 0 ∧
      gate 60 [5] s1 = some g1 ∧ g1.ni = 4 ∧ g1.ni ≠ 0 ∧ g1.t = 23 / 100 ∧ g1.t ≠ g1.bt ∧
      frameAtDraw 60 [5] (tick (1 / 100)) s1 = some s2 ∧ s2.ni = 4 := by
  refine ⟨{ Playback.init with t := 13 / 50 },
    { Playback.init with t := 13 / 50, bt := 13 / 50, broken := true },
    { Playback.init with t := 23 / 100, bt := 13 / 50, broken := true },
    { Playback.init with t := 23 / 100, ni := 4, bt := 13 / 50, broken := true },
    { Playback.init with t := 23 / 100, ni := 4, bt := 13 / 50, broken := true },
    ?_, ?_, ?_, ?_, ?_, ?_, ?_, ?_, ?_, ?_, ?_, ?_, ?_, ?_, ?_, ?_, ?_⟩ <;> decide!

/-- C8 (amended): let the gating test fire in a reachable state `s0` for the next unpassed
breakpoint `b` with no advance pending, so that this frame puts playback into the held
state with index `p = s0.ni`.  If none of `N`, `F`, `R` is held in the key handling of
this frame and of any number of later frames, all with `dt ≥ 0` (`G`, `C`, `P` are free),
then every frame has a result, the index stays `p`, `broken` stays set, `bt` stays the
hold time captured in the first frame, and the gating step of the next frame again sets
the index to `p` and the clock to `bt`. -/
theorem hold_stable (vsize : Nat) (breaks : List Int) (hsorted : breaks.Pairwise (· < ·))
    (s0 : Playback) (b : Int) (hreach : Reachable vsize breaks s0)
    (hb : breakAt breaks (s0.lastBreakIndex + 1) = some b)
    (h1 : s0.ni ≤ b) (h2 : b ≤ min (numPoints vsize) (rawIndex s0.t))
    (hp : s0.pass_break = false) (f0 : FrameInput) (fs : List FrameInput)
    (hfs : ∀ f ∈ f0 :: fs,
      0 ≤ f.dt ∧ f.keys.keyN = false ∧ f.keys.keyF = false ∧ f.keys.keyR = false) :
    ∃ s1, run vsize breaks s0 (f0 :: fs) = some s1 ∧ s1.ni = s0.ni ∧ s1.broken = true ∧
      s1.bt = (if s0.broken then s0.bt else s0.t) ∧
      s1.lastBreakIndex = s0.lastBreakIndex ∧
      ∃ g, gate vsize breaks s1 = some g ∧ g.ni = s0.ni ∧ g.t = s1.bt ∧ g.bt = s1.bt ∧
        g.broken = true := by
  have hg := gate_hold vsize breaks s0 b hb h1 h2 hp
  have hbh : b ≤ min (numPoints vsize) (rawIndex (if s0.broken then s0.bt else s0.t)) := by
    cases hbk : s0.broken with
    | false => simpa using h2
    | true =>
      obtain ⟨_, hinv⟩ := holdTimeInv_of_reachable vsize breaks s0 hreach
      obtain ⟨k, bk, hk, hget, hle⟩ := hinv hbk
      obtain ⟨h0, hget0⟩ := breakAt_getElem hb
      have hik : (s0.lastBreakIndex + 1).toNat ≤ k := by omega
      have := sorted_getElem_le hsorted hik hget0 hget
      simpa using this.trans hle
  obtain ⟨hheld, hl⟩ := held_after_frame vsize breaks f0
    { s0 with t := if s0.broken then s0.bt else s0.t,
              bt := if s0.broken then s0.bt else s0.t, broken := true } s0.ni
    (if s0.broken then s0.bt else s0.t) (hfs f0 (List.mem_cons_self f0 fs))
    rfl hp rfl rfl rfl ⟨b, hb, h1, hbh⟩
  obtain ⟨s1, hs1, hh1, hl1⟩ := held_run vsize breaks s0.ni _ fs _ hheld
    (fun f hf => hfs f (List.mem_cons_of_mem f0 hf))
  obtain ⟨g, hg1, hni, ht, hbt, hbroken, _, _⟩ := held_gate vsize breaks s1 _ _ hh1
  obtain ⟨hb1, _, hn1, hbt1, _, _⟩ := hh1
  refine ⟨s1, ?_, hn1, hb1, hbt1, hl1.trans hl, g, hg1, hni, ?_, ?_, hbroken⟩
  · simp [run, frame_of_gate vsize breaks f0 s0 _ hg, hs1]
  · rw [ht, hbt1]
  · rw [hbt, hbt1]

/-- The hold of C8 for `breaks = [5, 12]`, 20 points: the gating test fires after one
frame of one second; a tick, a frame with `C`, `G`, `P` held, and another tick keep the
index at 0. -/
theorem hold_stable_witness :
    ∃ s1, run 60 [5, 12] { Playback.init with t := 1 }
        [tick 1, press (1 / 60) false true false true true false, tick 1] = some s1 ∧
      s1.ni = 0 ∧ s1.broken = true ∧ s1.bt = 1 :=
  let ⟨s1, hrun, hni, hbroken, hbt, _⟩ :=
    hold_stable 60 [5, 12] (by decide) { Playback.init with t := 1 } 5
      ⟨[tick 1], by decide!⟩ (by decide!) (by decide!) (by decide!) (by decide!)
      (tick 1) [press (1 / 60) false true false true true false, tick 1] (by decide!)
  ⟨s1, hrun, hni, hbroken, hbt⟩

/-! ## Latched advance -/

@[simp]
theorem inputR_n_pressed (k : Keys) (s : Playback) : (inputR k s).n_pressed = s.n_pressed := by
  simp only [inputR]
  split_ifs <;> rfl

@[simp]
theorem inputC_n_pressed (k : Keys) (s : Playback) : (inputC k s).n_pressed = s.n_pressed := by
  simp only [inputC]
  split_ifs <;> rfl

@[simp]
theorem inputF_n_pressed (k : Keys) (s : Playback) : (inputF k s).n_pressed = s.n_pressed := by
  simp only [inputF]
  split_ifs <;> rfl

@[simp]
theorem inputG_n_pressed (k : Keys) (s : Playback) : (inputG k s).n_pressed = s.n_pressed := by
  simp only [inputG]
  split_ifs <;> rfl

@[simp]
theorem inputP_n_pressed (k : Keys) (s : Playback) : (inputP k s).n_pressed = s.n_pressed := by
  simp only [inputP]
  split_ifs <;> rfl

theorem inputN_keeps_pass (k : Keys) (s : Playback) (h : s.pass_break = true) :
    (inputN k s).pass_break = true := by
  simp only [inputN]
  split_ifs <;> simp [h]

theorem inputN_edge (k : Keys) (s : Playback) (hN : k.keyN = true) (hn : s.n_pressed = false) :
    (inputN k s).pass_break = true := by
  simp [inputN, hN, hn]

theorem processInput_keeps_pass (k : Keys) (s : Playback) (hR : k.keyR = false)
    (h : s.pass_break = true) : (processInput k s).pass_break = true := by
  apply inputN_keeps_pass
  simpa [inputR_off k s hR] using h

theorem processInput_edge (k : Keys) (s : Playback) (hN : k.keyN = true)
    (hn : s.n_pressed = false) : (processInput k s).pass_break = true := by
  apply inputN_edge _ _ hN
  simpa using hn

theorem processInput_reset_pass (k : Keys) (s : Playback) (hR : k.keyR = true)
    (hN : k.keyN = false) : (processInput k s).pass_break = false := by
  simp [processInput, inputN_off_pass_break _ _ hN, inputR, hR]

theorem quietRun_cons (vsize : Nat) (breaks : List Int) (s : Playback) (f : FrameInput)
    (fs : List FrameInput) (h : quietRun vsize breaks s (f :: fs) = true) :
    f.keys.keyR = false ∧ gateFires vsize breaks s = false ∧
      ∃ s1, frame vsize breaks f s = some s1 ∧ quietRun vsize breaks s1 fs = true := by
  simp only [quietRun, Bool.and_eq_true, Bool.not_eq_true'] at h
  obtain ⟨⟨hR, hq⟩, hm⟩ := h
  cases hf : frame vsize breaks f s with
  | none => simp [hf] at hm
  | some s1 =>
    rw [hf] at hm
    exact ⟨hR, hq, s1, rfl, hm⟩

theorem quiet_frame (vsize : Nat) (breaks : List Int) (f : FrameInput) (s s1 : Playback)
    (hR : f.keys.keyR = false) (hq : gateFires vsize breaks s = false)
    (hf : frame vsize breaks f s = some s1) :
    s1.lastBreakIndex = s.lastBreakIndex ∧ s1.broken = s.broken ∧
      s1.pass_break =
        (processInput f.keys { s with ni := min (numPoints vsize) (rawIndex s.t) }).pass_break := by
  obtain ⟨g, hg, rfl⟩ := gate_of_frame vsize breaks f s s1 hf
  rw [gate_quiet vsize breaks s g hq hg]
  refine ⟨?_, ?_, ?_⟩
  · simp [advanceTime, processInput_lastBreakIndex _ _ hR]
  · simp [advanceTime, processInput_broken]
  · simp [advanceTime]

theorem latched_run (vsize : Nat) (breaks : List Int) (fs : List FrameInput) :
    ∀ s : Playback, s.pass_break = true → quietRun vsize breaks s fs = true →
      ∃ s1, run vsize breaks s fs = some s1 ∧ s1.pass_break = true ∧
        s1.lastBreakIndex = s.lastBreakIndex ∧ s1.broken = s.broken := by
  induction fs with
  | nil => intro s hp _; exact ⟨s, rfl, hp, rfl, rfl⟩
  | cons f fs ih =>
    intro s hp hq
    obtain ⟨hR, hfire, s1, hf, hq1⟩ := quietRun_cons vsize breaks s f fs hq
    obtain ⟨hl, hb, hpass⟩ := quiet_frame vsize breaks f s s1 hR hfire hf
    have hp1 : s1.pass_break = true := by
      rw [hpass]
      exact processInput_keeps_pass _ _ hR hp
    obtain ⟨s2, hs2, hp2, hl2, hb2⟩ := ih s1 hp1 hq1
    exact ⟨s2, by simp [run, hf, hs2], hp2, hl2.trans hl, hb2.trans hb⟩

/-- C10: if `N` goes down (`N` held, `n_pressed` clear) in a frame in which the gating
test does not fire, then over that frame and any number of following frames in which the
test does not fire and `R` is not held, `lastBreakIndex` and `broken` are unchanged and
`pass_break` is still true at the end.  From there, a frame with `R` held and `N` not
held ends with `pass_break` false, and when the gating test fires for the next unpassed
breakpoint the gating step passes it in that very frame: `lastBreakIndex` is incremented,
the index is the recomputed one (not clamped back), the clock is not snapped back, and
`pass_break` and `broken` are false. -/
theorem advance_latched (vsize : Nat) (breaks : List Int) (s : Playback) (f : FrameInput)
    (fs : List FrameInput) (hN : f.keys.keyN = true) (hn : s.n_pressed = false)
    (hq : quietRun vsize breaks s (f :: fs) = true) :
    ∃ s1, run vsize breaks s (f :: fs) = some s1 ∧ s1.pass_break = true ∧
      s1.lastBreakIndex = s.lastBreakIndex ∧ s1.broken = s.broken ∧
      (∀ (f1 : FrameInput) (s2 : Playback), f1.keys.keyR = true → f1.keys.keyN = false →
        frame vsize breaks f1 s1 = some s2 → s2.pass_break = false) ∧
      (∀ b, breakAt breaks (s1.lastBreakIndex + 1) = some b → s1.ni ≤ b →
        b ≤ min (numPoints vsize) (rawIndex s1.t) →
        ∃ g, gate vsize breaks s1 = some g ∧ g.lastBreakIndex = s1.lastBreakIndex + 1 ∧
          g.ni = min (numPoints vsize) (rawIndex s1.t) ∧ g.t = s1.t ∧
          g.pass_break = false ∧ g.broken = false) := by
  obtain ⟨hR, hfire, s1, hf, hq1⟩ := quietRun_cons vsize breaks s f fs hq
  obtain ⟨hl, hb, hpass⟩ := quiet_frame vsize breaks f s s1 hR hfire hf
  have hp1 : s1.pass_break = true := by
    rw [hpass]
    exact processInput_edge _ _ hN hn
  obtain ⟨s2, hs2, hp2, hl2, hb2⟩ := latched_run vsize breaks fs s1 hp1 hq1
  refine ⟨s2, by simp [run, hf, hs2], hp2, hl2.trans hl, hb2.trans hb, ?_, ?_⟩
  · intro f1 s3 hR1 hN1 hf1
    obtain ⟨g, _, rfl⟩ := gate_of_frame vsize breaks f1 s2 s3 hf1
    simp [advanceTime, processInput_reset_pass _ _ hR1 hN1]
  · intro b hb1 h1 h2
    exact ⟨_, gate_pass vsize breaks s2 b hb1 h1 h2 hp2, rfl, rfl, rfl, rfl, rfl⟩

/-- The latch of C10 for `breaks = [5, 12]`, 20 points, twenty frames per second: `N`
goes down in the first frame, four quiet frames follow, `pass_break` is still set with no
breakpoint passed, and the gating step of the next frame, in which the index reaches 5,
passes the breakpoint with index 5 and without a hold. -/
theorem advance_latched_witness :
    ∃ s1 g, run 60 [5, 12] Playback.init
        [pressN (1 / 20), tick (1 / 20), tick (1 / 20), tick (1 / 20), tick (1 / 20)]
          = some s1 ∧
      s1.pass_break = true ∧ s1.lastBreakIndex = -1 ∧ s1.broken = false ∧
      gate 60 [5, 12] s1 = some g ∧ g.lastBreakIndex = 0 ∧ g.ni = 5 ∧ g.broken = false := by
  obtain ⟨s1, hrun, hpass, hl, hb, _, hgate⟩ :=
    advance_latched 60 [5, 12] Playback.init (pressN (1 / 20))
      [tick (1 / 20), tick (1 / 20), tick (1 / 20), tick (1 / 20)]
      (by decide!) (by decide!) (by decide!)
  have hval : run 60 [5, 12] Playback.init
      [pressN (1 / 20), tick (1 / 20), tick (1 / 20), tick (1 / 20), tick (1 / 20)]
        = some { Playback.init with t := 1 / 4, ni := 4, pass_break := true } := by
    decide!
  have hs1 : s1 = { Playback.init with t := 1 / 4, ni := 4, pass_break := true } :=
    Option.some.inj (hrun.symm.trans hval)
  subst hs1
  obtain ⟨g, hg, hgl, hgn, _, _, hgb⟩ := hgate 5 (by decide!) (by decide!) (by decide!)
  refine ⟨_, g, hrun, hpass, hl, hb, hg, ?_, ?_, hgb⟩
  · rw [hgl]
    decide
  · rw [hgn]
    decide!

/-! ## Camera basis -/

/-- C7: over the reals, the default camera after `ProcessMouseMovement(450, 0)` and
`Rotate(LEFT)` has `Yaw = -45`, `Pitch = 0`, `Roll = 90`, and `updateCameraVectors` leaves
`Front = (√2/2, 0, -√2/2)` and `Right = (0, √2/2, √2/2)`, both of unit length, with
`Front · Right = -1/2`: the two are not orthogonal. -/
theorem camera_basis_not_orthogonal :
    let m : MathFns ℝ :=
      { cos := Real.cos, sin := Real.sin, inversesqrt := fun x => 1 / Real.sqrt x,
        radians := fun d => d * (Real.pi / 180) }
    (lookThenRoll m).Yaw = -45 ∧ (lookThenRoll m).Pitch = 0 ∧ (lookThenRoll m).Roll = 90 ∧
    (lookThenRoll m).Front = { x := Real.sqrt 2 / 2, y := 0, z := -(Real.sqrt 2 / 2) } ∧
    (lookThenRoll m).Right = { x := 0, y := Real.sqrt 2 / 2, z := Real.sqrt 2 / 2 } ∧
    (lookThenRoll m).Front.dot (lookThenRoll m).Front = 1 ∧
    (lookThenRoll m).Right.dot (lookThenRoll m).Right = 1 ∧
    (lookThenRoll m).Front.dot (lookThenRoll m).Right = -1 / 2 := by
  intro m
  have hyaw : (lookThenRoll m).Yaw = -45 := by
    simp [lookThenRoll, Camera.Rotate, Camera.ProcessMouseMovement, Camera.new,
      Camera.updateCameraVectors, m]
    norm_num
  have hpitch : (lookThenRoll m).Pitch = 0 := by
    simp [lookThenRoll, Camera.Rotate, Camera.ProcessMouseMovement, Camera.new,
      Camera.updateCameraVectors, m]
    norm_num
  have hroll : (lookThenRoll m).Roll = 90 := by
    simp [lookThenRoll, Camera.Rotate, Camera.ProcessMouseMovement, Camera.new,
      Camera.updateCameraVectors, m]
  have hup : (lookThenRoll m).WorldUp = { x := 0, y := 1, z := 0 } := by
    simp [lookThenRoll, Camera.Rotate, Camera.ProcessMouseMovement, Camera.new,
      Camera.updateCameraVectors, m]
  have h45 : (-45 : ℝ) * (Real.pi / 180) = -(Real.pi / 4) := by ring
  have h90 : (90 : ℝ) * (Real.pi / 180) = Real.pi / 2 := by ring
  have hs2 : Real.sqrt 2 * Real.sqrt 2 = 2 := Real.mul_self_sqrt (by norm_num)
  have hfront :
      (lookThenRoll m).Front = { x := Real.sqrt 2 / 2, y := 0, z := -(Real.sqrt 2 / 2) } := by
    have hdef : (lookThenRoll m).Front =
        Vec3.normalize m
          { x := m.cos (m.radians (lookThenRoll m).Yaw) *
              m.cos (m.radians (lookThenRoll m).Pitch),
            y := m.sin (m.radians (lookThenRoll m).Pitch),
            z := m.sin (m.radians (lookThenRoll m).Yaw) *
              m.cos (m.radians (lookThenRoll m).Pitch) } := rfl
    rw [hdef, hyaw, hpitch]
    simp only [m, h45, Vec3.normalize, Vec3.scale, Vec3.dot, zero_mul, Real.cos_zero,
      Real.sin_zero, Real.cos_neg, Real.sin_neg, Real.cos_pi_div_four, Real.sin_pi_div_four,
      mul_one, mul_zero, add_zero]
    have h1 :
        Real.sqrt 2 / 2 * (Real.sqrt 2 / 2) + -(Real.sqrt 2 / 2) * -(Real.sqrt 2 / 2) = 1 := by
      nlinarith [hs2]
    rw [h1]
    simp
  have hright :
      (lookThenRoll m).Right = { x := 0, y := Real.sqrt 2 / 2, z := Real.sqrt 2 / 2 } := by
    have hdef : (lookThenRoll m).Right =
        Vec3.normalize m
          (Vec3.rotateZ m ((lookThenRoll m).Front.cross (lookThenRoll m).WorldUp)
            (m.radians (lookThenRoll m).Roll)) := rfl
    rw [hdef, hfront, hup, hroll]
    simp only [m, h90, Vec3.normalize, Vec3.scale, Vec3.dot, Vec3.cross, Vec3.rotateZ,
      Real.cos_pi_div_two, Real.sin_pi_div_two, mul_one, mul_zero, zero_mul, sub_zero, add_zero,
      zero_add, zero_sub, neg_neg, sub_self]
    have h1 : -(1 * -(Real.sqrt 2 / 2)) * -(1 * -(Real.sqrt 2 / 2))
        + Real.sqrt 2 / 2 * (Real.sqrt 2 / 2) = 1 := by
      nlinarith [hs2]
    rw [h1]
    simp
  refine ⟨hyaw, hpitch, hroll, hfront, hright, ?_, ?_, ?_⟩
  · rw [hfront]
    simp only [Vec3.dot]
    nlinarith [hs2]
  · rw [hright]
    simp only [Vec3.dot]
    nlinarith [hs2]
  · rw [hfront, hright]
    simp only [Vec3.dot]
    nlinarith [hs2]

end Vis
